import Mathlib

/-!
Verification of the `dirtree` traversal-and-render engine.

This file is a shallow embedding of the POSIX branch of `src/dirtree.c`.
Filesystem interaction is abstracted as the observations the C code makes of
the OS (`realpath`, `opendir`/`readdir`, `stat`); C strings become Lean
`String`s (byte-wise `strcmp` order on valid UTF-8 agrees with the code-point
order used here); the recursion of `print_tree_to_buffer`, which C bounds by
nothing but the call stack and `PATH_MAX` truncation, is given an explicit
fuel parameter; a `NULL` pointer argument becomes `Option.none`.  The string
buffer is modelled as the list of appended lines (every append in the
traversal is one full line), and `PATH_MAX` truncation of `snprintf` is not
modelled (paths are unbounded strings).
-/

namespace Dirtree

/-- Output format, from `DirtreeFormat` in `dirtree.h`:
`DIRTREE_FORMAT_ASCII` and `DIRTREE_FORMAT_UNICODE`. -/
inductive Format where
  | ascii
  | unicode
deriving DecidableEq, Repr

/-- The glyph table `tree_chars` from `dirtree.c`
(index 0 = branch, 1 = corner, 2 = vertical, 3 = space). -/
def tree_chars (fmt : Format) (i : Nat) : String :=
  match fmt, i with
  | .ascii, 0 => "|-- "
  | .ascii, 1 => "+-- "
  | .ascii, 2 => "|   "
  | .ascii, 3 => "    "
  | .unicode, 0 => "├── "
  | .unicode, 1 => "└── "
  | .unicode, 2 => "│   "
  | .unicode, 3 => "    "
  | _, _ => ""

/-- `TREE_BRANCH(fmt)` from `dirtree.c`. -/
def TREE_BRANCH (fmt : Format) : String := tree_chars fmt 0

/-- `TREE_CORNER(fmt)` from `dirtree.c`. -/
def TREE_CORNER (fmt : Format) : String := tree_chars fmt 1

/-- `TREE_VERTICAL(fmt)` from `dirtree.c`. -/
def TREE_VERTICAL (fmt : Format) : String := tree_chars fmt 2

/-- `TREE_SPACE(fmt)` from `dirtree.c`. -/
def TREE_SPACE (fmt : Format) : String := tree_chars fmt 3

/-- `DirtreeConfig` from `dirtree.h`.  The `NULL`-or-array custom skip list
pointers become `Option (List String)`; the `NULL` array terminator of the C
representation is implicit in the list. -/
structure Config where
  max_depth : Int
  skip_hidden : Bool
  skip_common : Bool
  format : Format
  custom_skip_dirs : Option (List String)
  custom_skip_files : Option (List String)
deriving DecidableEq, Repr

/-- `default_skiplist` from `dirtree.c`. -/
def default_skiplist : List String :=
  ["node_modules", ".git", ".vscode", "__pycache__", "venv", ".idea",
   "$RECYCLE.BIN", "System Volume Information", "Windows.old", "AppData", "Temp"]

/-- `default_skipfiles` from `dirtree.c`. -/
def default_skipfiles : List String :=
  [".gitignore", ".DS_Store", "Thumbs.db", ".env",
   "desktop.ini", "ntuser.dat", "NTUSER.DAT", "ntuser.dat.LOG1",
   "ntuser.dat.LOG2", "ntuser.ini"]

/-- The membership scans of `should_skip_dir` / `should_skip_file`:
`strcmp(name, list[i]) == 0` for some `i` before the `NULL` terminator. -/
def in_name_list (name : String) (l : List String) : Bool :=
  l.any fun s => name = s

/-- `name[0] == '.'` from `dirtree.c` (an empty C string has `name[0] == 0`,
which is not `'.'`). -/
def starts_with_dot (name : String) : Bool :=
  match name.data with
  | [] => false
  | c :: _ => c = '.'

/-- `should_skip_dir` from `dirtree.c`. -/
def should_skip_dir (name : String) (config : Config) : Bool :=
  if !config.skip_common then false
  else if in_name_list name default_skiplist then true
  else if (match config.custom_skip_dirs with
           | some l => in_name_list name l
           | none => false) then true
  else if config.skip_hidden && starts_with_dot name then true
  else false

/-- `should_skip_file` from `dirtree.c`. -/
def should_skip_file (name : String) (config : Config) : Bool :=
  if !config.skip_common then false
  else if in_name_list name default_skipfiles then true
  else if (match config.custom_skip_files with
           | some l => in_name_list name l
           | none => false) then true
  else if config.skip_hidden && starts_with_dot name then true
  else false

/-- C `strcmp`, on character lists (the terminating `NUL` of the shorter
string compares below any character, giving the prefix cases). -/
def strcmp : List Char → List Char → Ordering
  | [], [] => .eq
  | [], _ :: _ => .lt
  | _ :: _, [] => .gt
  | a :: as, b :: bs =>
    if a < b then .lt
    else if b < a then .gt
    else strcmp as bs

/-- `DirEntry` from `dirtree.c`. -/
structure DirEntry where
  path : String
  name : String
  is_dir : Bool
deriving DecidableEq, Repr

/-- `compare_entries` from `dirtree.c`: `strcmp` of the entry names
(as an `Ordering` rather than a C `int` sign). -/
def compare_entries (a b : DirEntry) : Ordering :=
  strcmp a.name.data b.name.data

/-- The "less or equal" order `qsort` establishes with `compare_entries`. -/
def entry_le (a b : DirEntry) : Prop := compare_entries a b ≠ Ordering.gt

instance : DecidableRel entry_le := fun a b => by
  unfold entry_le; infer_instance

/-- The filesystem as the C code observes it: `realpath` (root resolution),
`opendir` + `readdir` (`none` when `opendir` fails; otherwise the entry names
in on-disk order), and `stat` (`none` when `stat` fails; otherwise
`S_ISDIR(st.st_mode)`).  POSIX `stat` and `opendir` follow symbolic links, so
for a path whose final component is a symlink these report on the target. -/
structure FS where
  realpath : String → Option String
  readdir : String → Option (List String)
  stat : String → Option Bool

/-- The mutable state threaded through `print_tree_to_buffer`: the string
buffer (as the list of appended lines) and the `VisitedDirs` path list. -/
structure WalkState where
  buffer : List String
  visited : List String
deriving DecidableEq, Repr

/-- `is_visited` from `dirtree.c`: linear scan with `strcmp == 0`. -/
def is_visited (visited : List String) (path : String) : Bool :=
  visited.any fun p => p = path

/-- `mark_visited` from `dirtree.c`: append at index `size`. -/
def mark_visited (visited : List String) (path : String) : List String :=
  visited ++ [path]

/-- One iteration of the entry-collection loop of `print_tree_to_buffer`
(POSIX branch): skip `.` and `..`, build `path = dir + "/" + name`, `stat`
it (skipping the entry when `stat` fails), classify by `S_ISDIR`, apply the
skip predicates; `some` is the entry appended to `items`. -/
def entry_of_name (fs : FS) (config : Config) (dir : String) (n : String) :
    Option DirEntry :=
  if n = "." ∨ n = ".." then none
  else
    match fs.stat (dir ++ "/" ++ n) with
    | none => none
    | some isDir =>
      if isDir && should_skip_dir n config then none
      else if !isDir && should_skip_file n config then none
      else some ⟨dir ++ "/" ++ n, n, isDir⟩

/-- The entry-collection loop of `print_tree_to_buffer`: the surviving
entries in `readdir` order. -/
def collect_entries (fs : FS) (config : Config) (dir : String)
    (names : List String) : List DirEntry :=
  names.filterMap (entry_of_name fs config dir)

/-- The `qsort(items, count, sizeof(DirEntry), compare_entries)` call.
`qsort` leaves the order of `compare_entries`-equal elements unspecified, but
entries with equal names are fully equal here (name determines path and
type), so any comparison sort computes the same list; insertion sort is
used. -/
def sort_entries (es : List DirEntry) : List DirEntry :=
  List.insertionSort entry_le es

/-- The rendering loop over the sorted entries in `print_tree_to_buffer`:
`is_last = (i == count-1)`, choose corner/space on the last entry and
branch/vertical otherwise, emit `cur_pfx + name + "\n"`, and recurse (through
`rec`, the walk at the remaining fuel) into directory entries with the
extended continuation and `current_depth + 1`. -/
def process_entries (rec : String → String → Nat → WalkState → WalkState)
    (config : Config) (pfx : String) (current_depth : Nat) :
    List DirEntry → WalkState → WalkState
  | [], s => s
  | e :: rest, s =>
    let is_last := rest.isEmpty
    let cur_pfx := pfx ++ (if is_last then TREE_CORNER config.format
                           else TREE_BRANCH config.format)
    let next_pfx := pfx ++ (if is_last then TREE_SPACE config.format
                            else TREE_VERTICAL config.format)
    let line := cur_pfx ++ e.name ++ "\n"
    let s1 : WalkState := { s with buffer := s.buffer ++ [line] }
    let s2 := if e.is_dir then rec e.path next_pfx (current_depth + 1) s1 else s1
    process_entries rec config pfx current_depth rest s2

/-- `print_tree_to_buffer` from `dirtree.c` (POSIX branch), with explicit
fuel standing for the unbounded C recursion: depth cut-off, visited check,
`mark_visited` before listing, `opendir` (silent return on failure), then
collect, sort and render. -/
def print_tree_to_buffer (fs : FS) (config : Config) :
    Nat → String → String → Nat → WalkState → WalkState
  | 0, _, _, _, s => s
  | fuel + 1, dir, pfx, current_depth, s =>
    if config.max_depth > 0 ∧ (current_depth : Int) > config.max_depth then s
    else if is_visited s.visited dir then s
    else
      let s' : WalkState := { s with visited := mark_visited s.visited dir }
      match fs.readdir dir with
      | none => s'
      | some names =>
        let items := sort_entries (collect_entries fs config dir names)
        process_entries (print_tree_to_buffer fs config fuel)
          config pfx current_depth items s'

/-- The basename extraction in `dirtree_generate_string`:
`strrchr(abs_dir, '/')`, whole string when there is no separator, the suffix
after the last `'/'` otherwise. -/
def basename_of (s : String) : String :=
  ⟨s.data.foldl (fun acc c => if c = '/' then [] else acc ++ [c]) []⟩

/-- `dirtree_generate_string` from `dirtree.c`: `NULL` checks, root
resolution via `get_absolute_path` (`realpath`), the basename first line,
then the walk from the resolved root with empty continuation, depth 1 and a
fresh empty visited set. -/
def dirtree_generate_string (fs : FS) (fuel : Nat)
    (dirpath : Option String) (config : Option Config) : Option String :=
  match dirpath, config with
  | some dp, some cfg =>
    match fs.realpath dp with
    | none => none
    | some abs_dir =>
      let st := print_tree_to_buffer fs cfg fuel abs_dir "" 1
        { buffer := [], visited := [] }
      some (basename_of abs_dir ++ "\n" ++ String.join st.buffer)
  | _, _ => none

/-- A `FILE *` output stream, abstracted to whether `fputs` succeeds
(returns a non-negative value). -/
structure Sink where
  write_ok : Bool
deriving DecidableEq, Repr

/-- `dirtree_print_to_file` from `dirtree.c`: `-1` on any `NULL` argument or
generation failure, otherwise `fputs` of the generated string (`0` on
success, `-1` on write failure).  The second component records what was
written to the stream (`none` = nothing). -/
def dirtree_print_to_file (fs : FS) (fuel : Nat) (output : Option Sink)
    (dirpath : Option String) (config : Option Config) : Int × Option String :=
  match output, dirpath, config with
  | some out, some dp, some cfg =>
    match dirtree_generate_string fs fuel (some dp) (some cfg) with
    | none => (-1, none)
    | some str => if out.write_ok then (0, some str) else (-1, none)
  | _, _, _ => (-1, none)

/-- `dirtree_init_config` from `dirtree.c` (POSIX branch: Unicode format). -/
def dirtree_init_config : Config :=
  { max_depth := -1
    skip_hidden := true
    skip_common := true
    format := .unicode
    custom_skip_dirs := none
    custom_skip_files := none }

/-- The append step of `dirtree_add_skip_dir` / `dirtree_add_skip_file`:
walk to the `NULL` terminator, place the new name there, re-terminate. -/
def append_entry : List String → String → List String
  | [], n => [n]
  | x :: xs, n => x :: append_entry xs n

/-- `dirtree_add_skip_dir` from `dirtree.c`: no-op on `NULL` config or name;
otherwise grow the custom directory list (a `NULL` list pointer counts as
empty) by the new name. -/
def dirtree_add_skip_dir (config : Option Config) (dirname : Option String) :
    Option Config :=
  match config, dirname with
  | some cfg, some dn =>
    let cur := match cfg.custom_skip_dirs with
               | some l => l
               | none => []
    some { cfg with custom_skip_dirs := some (append_entry cur dn) }
  | _, _ => config

/-- `dirtree_add_skip_file` from `dirtree.c`: no-op on `NULL` config or name;
otherwise grow the custom file list by the new name. -/
def dirtree_add_skip_file (config : Option Config) (filename : Option String) :
    Option Config :=
  match config, filename with
  | some cfg, some fn =>
    let cur := match cfg.custom_skip_files with
               | some l => l
               | none => []
    some { cfg with custom_skip_files := some (append_entry cur fn) }
  | _, _ => config

/-! ### Concrete filesystems used as test inputs

Each instance records the observations the OS would answer for a small
on-disk layout; `stat`/`opendir` follow symlinks as POSIX specifies. -/

/-- A symlink cycle: directory `/r` contains one entry `loop`, a symlink to
`/r` itself.  Every traversal path `/r/loop/loop/...` resolves to `/r`, so
`readdir` answers `["loop"]` and `stat` answers "directory" for every path
the walk can form, and `realpath` collapses every such path to `/r`. -/
def cycFS : FS :=
  { realpath := fun _ => some "/r"
    readdir := fun _ => some ["loop"]
    stat := fun _ => some true }

/-- Root `/r` containing a real directory `d` (holding file `x`) and a
symlink `s` whose target is `d`: `stat "/r/s"` reports a directory and
`readdir "/r/s"` lists `d`'s contents, because both follow the link. -/
def symFS : FS :=
  { realpath := fun p => if p = "/r" then some "/r" else none
    readdir := fun p =>
      if p = "/r" then some ["d", "s"]
      else if p = "/r/d" ∨ p = "/r/s" then some ["x"]
      else none
    stat := fun p =>
      if p = "/r/d" ∨ p = "/r/s" then some true
      else if p = "/r/d/x" ∨ p = "/r/s/x" then some false
      else none }

/-- A root path `f` that exists but is a regular file: `realpath` succeeds
(it resolves to `/r/f`), while `opendir` fails on it (`ENOTDIR`). -/
def fileFS : FS :=
  { realpath := fun p => if p = "f" then some "/r/f" else none
    readdir := fun _ => none
    stat := fun _ => none }

/-- Root `/r` containing one subdirectory `sub` which holds files `a`, `b`. -/
def subFS : FS :=
  { realpath := fun p => if p = "/r" then some "/r" else none
    readdir := fun p =>
      if p = "/r" then some ["sub"]
      else if p = "/r/sub" then some ["b", "a"]
      else none
    stat := fun p =>
      if p = "/r/sub" then some true
      else if p = "/r/sub/a" ∨ p = "/r/sub/b" then some false
      else none }

/-- A root directory itself named `node_modules`, containing one file. -/
def nmFS : FS :=
  { realpath := fun p => if p = "nm" then some "/p/node_modules" else none
    readdir := fun p => if p = "/p/node_modules" then some ["a.txt"] else none
    stat := fun p => if p = "/p/node_modules/a.txt" then some false else none }

/-! ### Properties of `strcmp` and the sort order -/

theorem strcmp_self (a : List Char) : strcmp a a = Ordering.eq := by
  induction a with
  | nil => rfl
  | cons c cs ih => simp [strcmp, ih]

theorem strcmp_eq_eq : ∀ {a b : List Char}, strcmp a b = Ordering.eq → a = b := by
  intro a
  induction a with
  | nil =>
    intro b h
    cases b with
    | nil => rfl
    | cons y ys => simp [strcmp] at h
  | cons x xs ih =>
    intro b h
    cases b with
    | nil => simp [strcmp] at h
    | cons y ys =>
      unfold strcmp at h
      by_cases h1 : x < y
      · simp [h1] at h
      · by_cases h2 : y < x
        · simp [h1, h2] at h
        · have hxy : x = y := le_antisymm (not_lt.mp h2) (not_lt.mp h1)
          rw [if_neg h1, if_neg h2] at h
          rw [hxy, ih h]

theorem strcmp_gt_iff : ∀ {a b : List Char},
    strcmp a b = Ordering.gt ↔ strcmp b a = Ordering.lt := by
  intro a
  induction a with
  | nil =>
    intro b
    cases b <;> simp [strcmp]
  | cons x xs ih =>
    intro b
    cases b with
    | nil => simp [strcmp]
    | cons y ys =>
      unfold strcmp
      by_cases h1 : x < y <;> by_cases h2 : y < x
      · exact absurd (h1.trans h2) (lt_irrefl x)
      · simp [h1, h2]
      · simp [h1, h2]
      · simp [h1, h2, ih]

theorem strcmp_lt_trans : ∀ {a b c : List Char},
    strcmp a b = Ordering.lt → strcmp b c = Ordering.lt →
    strcmp a c = Ordering.lt := by
  intro a
  induction a with
  | nil =>
    intro b c h1 h2
    cases b with
    | nil => simp [strcmp] at h1
    | cons y ys =>
      cases c with
      | nil => simp [strcmp] at h2
      | cons z zs => simp [strcmp]
  | cons x xs ih =>
    intro b c h1 h2
    cases b with
    | nil => simp [strcmp] at h1
    | cons y ys =>
      cases c with
      | nil => simp [strcmp] at h2
      | cons z zs =>
        unfold strcmp at h1 h2 ⊢
        by_cases hxy : x < y
        · by_cases hyz : y < z
          · have hxz : x < z := hxy.trans hyz
            simp [hxz]
          · by_cases hzy : z < y
            · rw [if_neg hyz, if_pos hzy] at h2
              simp at h2
            · have hyz' : y = z := le_antisymm (not_lt.mp hzy) (not_lt.mp hyz)
              subst hyz'
              simp [hxy]
        · by_cases hyx : y < x
          · rw [if_neg hxy, if_pos hyx] at h1
            simp at h1
          · have hxy' : x = y := le_antisymm (not_lt.mp hyx) (not_lt.mp hxy)
            subst hxy'
            rw [if_neg hxy, if_neg hyx] at h1
            by_cases hxz : x < z
            · simp [hxz]
            · by_cases hzx : z < x
              · rw [if_neg hxz, if_pos hzx] at h2
                simp at h2
              · have hxz' : x = z := le_antisymm (not_lt.mp hzx) (not_lt.mp hxz)
                subst hxz'
                rw [if_neg hxz, if_neg hzx] at h2
                rw [if_neg hxz, if_neg hzx]
                exact ih h1 h2

theorem entry_le_total : ∀ a b : DirEntry, entry_le a b ∨ entry_le b a := by
  intro a b
  unfold entry_le compare_entries
  by_cases h : strcmp a.name.data b.name.data = Ordering.gt
  · right
    rw [strcmp_gt_iff] at h
    rw [h]
    simp
  · left
    exact h

theorem entry_le_trans :
    ∀ a b c : DirEntry, entry_le a b → entry_le b c → entry_le a c := by
  intro a b c h1 h2
  unfold entry_le compare_entries at h1 h2 ⊢
  cases hab : strcmp a.name.data b.name.data with
  | gt => exact absurd hab h1
  | eq =>
    rw [strcmp_eq_eq hab]
    exact h2
  | lt =>
    cases hbc : strcmp b.name.data c.name.data with
    | gt => exact absurd hbc h2
    | eq =>
      rw [← strcmp_eq_eq hbc]
      exact h1
    | lt =>
      rw [strcmp_lt_trans hab hbc]
      simp

instance : IsTotal DirEntry entry_le := ⟨entry_le_total⟩

instance : IsTrans DirEntry entry_le := ⟨entry_le_trans⟩

theorem sort_entries_sorted (es : List DirEntry) :
    List.Sorted entry_le (sort_entries es) :=
  List.sorted_insertionSort entry_le es

theorem sort_entries_perm (es : List DirEntry) :
    (sort_entries es).Perm es :=
  List.perm_insertionSort entry_le es

/-! ### Properties of entry collection -/

theorem entry_of_name_name {fs : FS} {cfg : Config} {dir n : String}
    {e : DirEntry} (h : entry_of_name fs cfg dir n = some e) : e.name = n := by
  unfold entry_of_name at h
  split at h
  · exact Option.noConfusion h
  · split at h
    · exact Option.noConfusion h
    · split at h
      · exact Option.noConfusion h
      · split at h
        · exact Option.noConfusion h
        · injection h with h'
          rw [← h']

theorem entry_of_name_stat {fs : FS} {cfg : Config} {dir n : String}
    {e : DirEntry} (h : entry_of_name fs cfg dir n = some e) :
    fs.stat e.path = some e.is_dir := by
  unfold entry_of_name at h
  split at h
  · exact Option.noConfusion h
  · split at h
    · exact Option.noConfusion h
    · next isDir heq =>
      split at h
      · exact Option.noConfusion h
      · split at h
        · exact Option.noConfusion h
        · injection h with h'
          rw [← h']
          exact heq

theorem map_filterMap_sublist {α β : Type} (f : α → Option β) (g : β → α)
    (hf : ∀ a b, f a = some b → g b = a) :
    ∀ l : List α, ((l.filterMap f).map g).Sublist l := by
  intro l
  induction l with
  | nil => simp
  | cons a l ih =>
    cases h : f a with
    | none =>
      rw [List.filterMap_cons_none h]
      exact ih.cons a
    | some b =>
      rw [List.filterMap_cons_some h]
      rw [List.map_cons, hf a b h]
      exact ih.cons₂ a

theorem collect_entries_names_sublist (fs : FS) (cfg : Config) (dir : String)
    (names : List String) :
    ((collect_entries fs cfg dir names).map DirEntry.name).Sublist names :=
  map_filterMap_sublist _ _ (fun _ _ h => entry_of_name_name h) names

theorem append_entry_eq (l : List String) (n : String) :
    append_entry l n = l ++ [n] := by
  induction l with
  | nil => rfl
  | cons x xs ih => simp [append_entry, ih]

/-! ### Structural properties of the render loop -/

theorem exists_app_trans {b0 b1 b2 : List String}
    (h1 : ∃ e, b1 = b0 ++ e) (h2 : ∃ e, b2 = b1 ++ e) : ∃ e, b2 = b0 ++ e := by
  obtain ⟨e1, h1⟩ := h1
  obtain ⟨e2, h2⟩ := h2
  exact ⟨e1 ++ e2, by rw [h2, h1, List.append_assoc]⟩

theorem process_entries_nil
    (rec : String → String → Nat → WalkState → WalkState)
    (cfg : Config) (pfx : String) (d : Nat) (s : WalkState) :
    process_entries rec cfg pfx d [] s = s := rfl

/-- One step of the render loop, with the `let` bindings inlined. -/
theorem process_entries_cons
    (rec : String → String → Nat → WalkState → WalkState)
    (cfg : Config) (pfx : String) (d : Nat) (e : DirEntry)
    (rest : List DirEntry) (s : WalkState) :
    process_entries rec cfg pfx d (e :: rest) s =
      process_entries rec cfg pfx d rest
        (if e.is_dir then
          rec e.path
            (pfx ++ (if rest.isEmpty then TREE_SPACE cfg.format
                     else TREE_VERTICAL cfg.format))
            (d + 1)
            ⟨s.buffer ++ [pfx ++ (if rest.isEmpty then TREE_CORNER cfg.format
                else TREE_BRANCH cfg.format) ++ e.name ++ "\n"], s.visited⟩
        else
          ⟨s.buffer ++ [pfx ++ (if rest.isEmpty then TREE_CORNER cfg.format
              else TREE_BRANCH cfg.format) ++ e.name ++ "\n"], s.visited⟩) := rfl

/-- The render loop only appends to the buffer (given that the recursive
walk it invokes does). -/
theorem process_entries_buffer_mono
    (rec : String → String → Nat → WalkState → WalkState)
    (hrec : ∀ d p n s, ∃ ext, (rec d p n s).buffer = s.buffer ++ ext)
    (cfg : Config) (pfx : String) (depth : Nat) :
    ∀ (es : List DirEntry) (s : WalkState),
      ∃ ext, (process_entries rec cfg pfx depth es s).buffer = s.buffer ++ ext := by
  intro es
  induction es with
  | nil =>
    intro s
    exact ⟨[], by simp [process_entries]⟩
  | cons e rest ih =>
    intro s
    simp only [process_entries]
    by_cases hd : e.is_dir
    · rw [if_pos hd]
      exact exists_app_trans (exists_app_trans ⟨_, rfl⟩ (hrec _ _ _ _)) (ih _)
    · rw [if_neg hd]
      exact exists_app_trans ⟨_, rfl⟩ (ih _)

/-- The walk only appends to the buffer. -/
theorem print_tree_buffer_mono (fs : FS) (cfg : Config) :
    ∀ (fuel : Nat) (dir pfx : String) (depth : Nat) (s : WalkState),
      ∃ ext, (print_tree_to_buffer fs cfg fuel dir pfx depth s).buffer
        = s.buffer ++ ext := by
  intro fuel
  induction fuel with
  | zero =>
    intro dir pfx depth s
    exact ⟨[], by simp [print_tree_to_buffer]⟩
  | succ n ih =>
    intro dir pfx depth s
    simp only [print_tree_to_buffer]
    by_cases hc : cfg.max_depth > 0 ∧ (depth : Int) > cfg.max_depth
    · rw [if_pos hc]
      exact ⟨[], by simp⟩
    · rw [if_neg hc]
      by_cases hv : is_visited s.visited dir = true
      · rw [if_pos hv]
        exact ⟨[], by simp⟩
      · rw [if_neg hv]
        cases hrd : fs.readdir dir with
        | none =>
          simp only [hrd]
          exact ⟨[], by simp⟩
        | some names =>
          simp only [hrd]
          exact process_entries_buffer_mono _ (fun d p m s2 => ih d p m s2)
            cfg pfx depth _ _

/-- When `max_depth <= 0` the walk does not depend on the depth counter. -/
theorem process_entries_depth_inv
    (rec : String → String → Nat → WalkState → WalkState)
    (hrec : ∀ dir p (d d' : Nat) s, rec dir p d s = rec dir p d' s)
    (cfg : Config) (pfx : String) :
    ∀ (es : List DirEntry) (d d' : Nat) (s : WalkState),
      process_entries rec cfg pfx d es s = process_entries rec cfg pfx d' es s := by
  intro es
  induction es with
  | nil => intro d d' s; rfl
  | cons e rest ih =>
    intro d d' s
    simp only [process_entries]
    by_cases hd : e.is_dir
    · rw [if_pos hd, if_pos hd, hrec e.path _ (d + 1) (d' + 1) _]
      exact ih _ _ _
    · rw [if_neg hd, if_neg hd]
      exact ih _ _ _

theorem print_tree_depth_inv (fs : FS) (cfg : Config)
    (hmd : cfg.max_depth ≤ 0) :
    ∀ (fuel : Nat) (dir pfx : String) (d d' : Nat) (s : WalkState),
      print_tree_to_buffer fs cfg fuel dir pfx d s
        = print_tree_to_buffer fs cfg fuel dir pfx d' s := by
  intro fuel
  induction fuel with
  | zero => intro dir pfx d d' s; rfl
  | succ n ih =>
    intro dir pfx d d' s
    have hcond : ∀ dd : Nat, ¬(cfg.max_depth > 0 ∧ (dd : Int) > cfg.max_depth) :=
      fun dd hc => absurd hc.1 (not_lt.mpr hmd)
    simp only [print_tree_to_buffer]
    rw [if_neg (hcond d), if_neg (hcond d')]
    by_cases hv : is_visited s.visited dir = true
    · rw [if_pos hv, if_pos hv]
    · rw [if_neg hv, if_neg hv]
      cases hrd : fs.readdir dir with
      | none => simp only [hrd]
      | some names =>
        simp only [hrd]
        exact process_entries_depth_inv _ (fun d2 p2 a b s2 => ih d2 p2 a b s2)
          cfg pfx _ d d' _

/-- The walk returns the state unchanged as soon as the depth counter
exceeds a positive `max_depth` (the cut-off of `print_tree_to_buffer`). -/
theorem print_tree_depth_cutoff (fs : FS) (cfg : Config)
    (fuel : Nat) (dir pfx : String) (d : Nat) (s : WalkState)
    (h1 : cfg.max_depth > 0) (h2 : (d : Int) > cfg.max_depth) :
    print_tree_to_buffer fs cfg fuel dir pfx d s = s := by
  cases fuel with
  | zero => rfl
  | succ n =>
    simp only [print_tree_to_buffer]
    rw [if_pos ⟨h1, h2⟩]

/-- The line emitted for the `i`-th sorted sibling: the configured corner
glyph on the last sibling and the branch glyph otherwise, between the
accumulated continuation and the entry name. -/
theorem process_entries_line
    (rec : String → String → Nat → WalkState → WalkState)
    (hrec : ∀ d p n s, ∃ ext, (rec d p n s).buffer = s.buffer ++ ext)
    (cfg : Config) (pfx : String) (depth : Nat) :
    ∀ (es : List DirEntry) (s : WalkState) (i : Nat) (h : i < es.length),
      ∃ pre post,
        (process_entries rec cfg pfx depth es s).buffer
          = s.buffer ++ pre
            ++ (pfx ++ (if i = es.length - 1 then TREE_CORNER cfg.format
                        else TREE_BRANCH cfg.format)
                ++ (es.get ⟨i, h⟩).name ++ "\n") :: post := by
  intro es
  induction es with
  | nil =>
    intro s i h
    exact absurd h (by simp)
  | cons e rest ih =>
    intro s i h
    cases i with
    | zero =>
      rw [process_entries_cons]
      have hiff0 : ((0 : Nat) = (e :: rest).length - 1) ↔ (rest.isEmpty = true) := by
        cases rest <;> simp
      by_cases hd : e.is_dir
      · rw [if_pos hd]
        obtain ⟨ext1, hext1⟩ := hrec e.path
          (pfx ++ (if rest.isEmpty then TREE_SPACE cfg.format
                   else TREE_VERTICAL cfg.format))
          (depth + 1)
          ⟨s.buffer ++ [pfx ++ (if rest.isEmpty then TREE_CORNER cfg.format
              else TREE_BRANCH cfg.format) ++ e.name ++ "\n"], s.visited⟩
        obtain ⟨ext2, hext2⟩ := process_entries_buffer_mono rec hrec cfg pfx depth rest
          (rec e.path
            (pfx ++ (if rest.isEmpty then TREE_SPACE cfg.format
                     else TREE_VERTICAL cfg.format))
            (depth + 1)
            ⟨s.buffer ++ [pfx ++ (if rest.isEmpty then TREE_CORNER cfg.format
                else TREE_BRANCH cfg.format) ++ e.name ++ "\n"], s.visited⟩)
        refine ⟨[], ext1 ++ ext2, ?_⟩
        rw [hext2, hext1, if_congr hiff0 rfl rfl]
        simp [List.append_assoc]
      · rw [if_neg hd]
        obtain ⟨ext2, hext2⟩ := process_entries_buffer_mono rec hrec cfg pfx depth rest
          ⟨s.buffer ++ [pfx ++ (if rest.isEmpty then TREE_CORNER cfg.format
              else TREE_BRANCH cfg.format) ++ e.name ++ "\n"], s.visited⟩
        refine ⟨[], ext2, ?_⟩
        rw [hext2, if_congr hiff0 rfl rfl]
        simp [List.append_assoc]
    | succ j =>
      have hj : j < rest.length := by
        simpa [Nat.succ_lt_succ_iff] using h
      have hiff : (j + 1 = (e :: rest).length - 1) ↔ (j = rest.length - 1) := by
        simp only [List.length_cons, Nat.add_sub_cancel]
        omega
      rw [process_entries_cons]
      by_cases hd : e.is_dir
      · rw [if_pos hd]
        obtain ⟨ext1, hext1⟩ := hrec e.path
          (pfx ++ (if rest.isEmpty then TREE_SPACE cfg.format
                   else TREE_VERTICAL cfg.format))
          (depth + 1)
          ⟨s.buffer ++ [pfx ++ (if rest.isEmpty then TREE_CORNER cfg.format
              else TREE_BRANCH cfg.format) ++ e.name ++ "\n"], s.visited⟩
        obtain ⟨pre', post', hih⟩ := ih
          (rec e.path
            (pfx ++ (if rest.isEmpty then TREE_SPACE cfg.format
                     else TREE_VERTICAL cfg.format))
            (depth + 1)
            ⟨s.buffer ++ [pfx ++ (if rest.isEmpty then TREE_CORNER cfg.format
                else TREE_BRANCH cfg.format) ++ e.name ++ "\n"], s.visited⟩)
          j hj
        refine ⟨(pfx ++ (if rest.isEmpty then TREE_CORNER cfg.format
            else TREE_BRANCH cfg.format) ++ e.name ++ "\n") :: (ext1 ++ pre'), post', ?_⟩
        rw [hih, hext1, if_congr hiff rfl rfl]
        simp [List.get, List.append_assoc]
      · rw [if_neg hd]
        obtain ⟨pre', post', hih⟩ := ih
          ⟨s.buffer ++ [pfx ++ (if rest.isEmpty then TREE_CORNER cfg.format
              else TREE_BRANCH cfg.format) ++ e.name ++ "\n"], s.visited⟩
          j hj
        refine ⟨(pfx ++ (if rest.isEmpty then TREE_CORNER cfg.format
            else TREE_BRANCH cfg.format) ++ e.name ++ "\n") :: pre', post', ?_⟩
        rw [hih, if_congr hiff rfl rfl]
        simp [List.get, List.append_assoc]

/-- The step the render loop performs at the `i`-th sorted sibling: the
remaining state is obtained by processing the later siblings from the state
reached right after sibling `i`, and — when sibling `i` is a directory —
that state is produced by the recursive walk called on the sibling's path
with the continuation extended by the space glyph on the last sibling and
the vertical glyph otherwise, at depth `d + 1`, from the buffer holding the
sibling's own line. -/
theorem process_entries_subtree
    (rec : String → String → Nat → WalkState → WalkState)
    (hrec : ∀ d p n s, ∃ ext, (rec d p n s).buffer = s.buffer ++ ext)
    (cfg : Config) (pfx : String) (d : Nat) :
    ∀ (es : List DirEntry) (s : WalkState) (i : Nat) (h : i < es.length),
      ∃ (si : WalkState) (pre : List String),
        si.buffer = s.buffer ++ pre
        ∧ process_entries rec cfg pfx d es s
          = process_entries rec cfg pfx d (es.drop (i + 1))
              (if (es.get ⟨i, h⟩).is_dir then
                rec (es.get ⟨i, h⟩).path
                  (pfx ++ (if i = es.length - 1 then TREE_SPACE cfg.format
                           else TREE_VERTICAL cfg.format))
                  (d + 1)
                  ⟨si.buffer ++ [pfx ++ (if i = es.length - 1 then TREE_CORNER cfg.format
                      else TREE_BRANCH cfg.format) ++ (es.get ⟨i, h⟩).name ++ "\n"],
                   si.visited⟩
              else
                ⟨si.buffer ++ [pfx ++ (if i = es.length - 1 then TREE_CORNER cfg.format
                    else TREE_BRANCH cfg.format) ++ (es.get ⟨i, h⟩).name ++ "\n"],
                 si.visited⟩) := by
  intro es
  induction es with
  | nil =>
    intro s i h
    exact absurd h (by simp)
  | cons e rest ih =>
    intro s i h
    cases i with
    | zero =>
      have hg1 : (if rest.isEmpty then TREE_SPACE cfg.format
            else TREE_VERTICAL cfg.format)
          = (if (0 : Nat) = (e :: rest).length - 1 then TREE_SPACE cfg.format
             else TREE_VERTICAL cfg.format) := by
        cases rest <;> simp
      have hg2 : (if rest.isEmpty then TREE_CORNER cfg.format
            else TREE_BRANCH cfg.format)
          = (if (0 : Nat) = (e :: rest).length - 1 then TREE_CORNER cfg.format
             else TREE_BRANCH cfg.format) := by
        cases rest <;> simp
      refine ⟨s, [], by simp, ?_⟩
      rw [process_entries_cons, hg1, hg2]
      rfl
    | succ j =>
      have hj : j < rest.length := by
        simpa [Nat.succ_lt_succ_iff] using h
      have hiff : (j = rest.length - 1) ↔ (j + 1 = (e :: rest).length - 1) := by
        simp only [List.length_cons, Nat.add_sub_cancel]
        omega
      have hg1 : (if j = rest.length - 1 then TREE_SPACE cfg.format
            else TREE_VERTICAL cfg.format)
          = (if j + 1 = (e :: rest).length - 1 then TREE_SPACE cfg.format
             else TREE_VERTICAL cfg.format) := by
        rw [if_congr hiff rfl rfl]
      have hg2 : (if j = rest.length - 1 then TREE_CORNER cfg.format
            else TREE_BRANCH cfg.format)
          = (if j + 1 = (e :: rest).length - 1 then TREE_CORNER cfg.format
             else TREE_BRANCH cfg.format) := by
        rw [if_congr hiff rfl rfl]
      rw [process_entries_cons]
      by_cases hd : e.is_dir
      · rw [if_pos hd]
        obtain ⟨ext1, hext1⟩ := hrec e.path
          (pfx ++ (if rest.isEmpty then TREE_SPACE cfg.format
                   else TREE_VERTICAL cfg.format))
          (d + 1)
          ⟨s.buffer ++ [pfx ++ (if rest.isEmpty then TREE_CORNER cfg.format
              else TREE_BRANCH cfg.format) ++ e.name ++ "\n"], s.visited⟩
        obtain ⟨si, pre', hbuf, heq⟩ := ih
          (rec e.path
            (pfx ++ (if rest.isEmpty then TREE_SPACE cfg.format
                     else TREE_VERTICAL cfg.format))
            (d + 1)
            ⟨s.buffer ++ [pfx ++ (if rest.isEmpty then TREE_CORNER cfg.format
                else TREE_BRANCH cfg.format) ++ e.name ++ "\n"], s.visited⟩)
          j hj
        refine ⟨si, (pfx ++ (if rest.isEmpty then TREE_CORNER cfg.format
            else TREE_BRANCH cfg.format) ++ e.name ++ "\n") :: (ext1 ++ pre'), ?_, ?_⟩
        · rw [hbuf, hext1]
          simp [List.append_assoc]
        · rw [heq, hg1, hg2]
          rfl
      · rw [if_neg hd]
        obtain ⟨si, pre', hbuf, heq⟩ := ih
          ⟨s.buffer ++ [pfx ++ (if rest.isEmpty then TREE_CORNER cfg.format
              else TREE_BRANCH cfg.format) ++ e.name ++ "\n"], s.visited⟩
          j hj
        refine ⟨si, (pfx ++ (if rest.isEmpty then TREE_CORNER cfg.format
            else TREE_BRANCH cfg.format) ++ e.name ++ "\n") :: pre', ?_, ?_⟩
        · rw [hbuf]
          simp [List.append_assoc]
        · rw [heq, hg1, hg2]
          rfl

/-! ### The walk on the cyclic filesystem -/

/-- One level of the walk on `cycFS`: the current key is marked, the single
entry `loop` is rendered, and the walk descends to the strictly longer key
`dir ++ "/loop"`. -/
theorem cyc_step (m : Nat) (dir pfx : String) (d : Nat) (s : WalkState)
    (hv : is_visited s.visited dir = false) :
    print_tree_to_buffer cycFS dirtree_init_config (m + 1) dir pfx d s =
      print_tree_to_buffer cycFS dirtree_init_config m (dir ++ "/" ++ "loop")
        (pfx ++ "    ") (d + 1)
        ⟨s.buffer ++ [pfx ++ "└── " ++ "loop" ++ "\n"], s.visited ++ [dir]⟩ := by
  have hv' : ¬(is_visited s.visited dir = true) := by
    rw [hv]
    simp
  have hssd : should_skip_dir "loop" dirtree_init_config = false := by decide
  have hdot : ¬(("loop" : String) = "." ∨ ("loop" : String) = "..") := by decide
  simp only [print_tree_to_buffer]
  rw [if_neg (fun hx => absurd hx.1 (by decide)), if_neg hv']
  simp [cycFS, collect_entries, entry_of_name, hdot, hssd, sort_entries,
    List.insertionSort, List.orderedInsert, mark_visited,
    process_entries_cons, process_entries_nil,
    TREE_CORNER, TREE_SPACE, tree_chars, dirtree_init_config]

/-- On the cyclic filesystem the walk never finds a repeated key: every
level appends one fresh visited entry and one rendered line, for as long as
fuel lasts. -/
theorem cyc_walk_growth :
    ∀ (n : Nat) (dir pfx : String) (d : Nat) (s : WalkState),
      (∀ v ∈ s.visited, v.length < dir.length) →
      ((print_tree_to_buffer cycFS dirtree_init_config n dir pfx d s).buffer.length
          = s.buffer.length + n
      ∧ (print_tree_to_buffer cycFS dirtree_init_config n dir pfx d s).visited.length
          = s.visited.length + n) := by
  intro n
  induction n with
  | zero =>
    intro dir pfx d s hs
    simp [print_tree_to_buffer]
  | succ m ih =>
    intro dir pfx d s hs
    have hv : is_visited s.visited dir = false := by
      simp only [is_visited, List.any_eq_false, decide_eq_true_eq]
      intro v hvm hveq
      subst hveq
      exact lt_irrefl _ (hs v hvm)
    rw [cyc_step m dir pfx d s hv]
    have hlen : (dir ++ "/" ++ "loop").length = dir.length + 5 := by
      have h1 : ("/" : String).length = 1 := rfl
      have h2 : ("loop" : String).length = 4 := rfl
      simp [String.length_append, h1, h2]
    have hs' : ∀ v ∈ s.visited ++ [dir], v.length < (dir ++ "/" ++ "loop").length := by
      intro v hv2
      rcases List.mem_append.mp hv2 with h1 | h2
      · have := hs v h1
        rw [hlen]
        omega
      · have hveq : v = dir := by simpa using h2
        subst hveq
        rw [hlen]
        omega
    obtain ⟨hb, hvv⟩ := ih (dir ++ "/" ++ "loop") (pfx ++ "    ") (d + 1)
      ⟨s.buffer ++ [pfx ++ "└── " ++ "loop" ++ "\n"], s.visited ++ [dir]⟩ hs'
    constructor
    · rw [hb]
      simp
      omega
    · rw [hvv]
      simp
      omega

/-! ### Claims -/

/-- C1: the claim states that on a cyclic hierarchy the walk terminates and
each distinct absolute path is expanded at most once, guarded by the visited
set.  The visited set is keyed on the uncanonicalized traversal path string
(`dir ++ "/" ++ name`), which strictly lengthens at every level, so on the
symlink cycle `/r/loop -> /r` the guard never matches: every unit of fuel
marks one fresh key and renders one more line for the same absolute
directory `/r` (whose `realpath` is `/r` at every level), for every `n`.
The unbounded C recursion therefore re-expands the same absolute path at
every level and is not stopped by the visited set. -/
theorem c1_cycle_guard_never_fires (n : Nat) :
    (print_tree_to_buffer cycFS dirtree_init_config n "/r" "" 1
        ⟨[], []⟩).buffer.length = n
    ∧ (print_tree_to_buffer cycFS dirtree_init_config n "/r" "" 1
        ⟨[], []⟩).visited.length = n := by
  have h := cyc_walk_growth n "/r" "" 1 ⟨[], []⟩ (by intro v hv; cases hv)
  simpa using h

/-- C2 counterexample: with `skipCommon = false` and `skipHidden = true`,
both predicates return `false` on hidden names, contradicting the claim
that they still return `true`. -/
theorem c2_counterexample :
    should_skip_dir ".git" { dirtree_init_config with skip_common := false } = false
    ∧ should_skip_file ".env" { dirtree_init_config with skip_common := false } = false
    ∧ ({ dirtree_init_config with skip_common := false } : Config).skip_hidden = true := by
  decide

/-- C2 (amended): `skip_common = false` short-circuits both predicates to
`false` for every name — the hidden-entry rule is applied only when
`skip_common` is true, so `skipHidden` is not an independent rule. -/
theorem c2_skip_common_master_switch (name : String) (cfg : Config)
    (h : cfg.skip_common = false) :
    should_skip_dir name cfg = false ∧ should_skip_file name cfg = false := by
  unfold should_skip_dir should_skip_file
  rw [h]
  simp

/-- C2 witness: the amended theorem applied to the hidden name `.hidden`. -/
theorem c2_witness :
    ({ dirtree_init_config with skip_common := false } : Config).skip_common = false
    ∧ (should_skip_dir ".hidden" { dirtree_init_config with skip_common := false } = false
       ∧ should_skip_file ".hidden" { dirtree_init_config with skip_common := false } = false) :=
  ⟨rfl, c2_skip_common_master_switch ".hidden" _ rfl⟩

/-- C3 counterexample: on `symFS` (root `/r` with directory `d` holding `x`
and symlink `s` whose target is `d`) the render recurses into `s` and lists
`x` below it (the final `"    └── x"` line), because classification uses
`stat`, which follows symlinks; the claim said `s` is a leaf line that is
never recursed into. -/
theorem c3_counterexample :
    dirtree_generate_string symFS 5 (some "/r") (some dirtree_init_config)
      = some "r\n├── d\n│   └── x\n└── s\n    └── x\n" := by
  decide

/-- C3 (amended): every collected entry is classified by what `stat`
reports for its path — `stat` follows symlinks, so a symlink to a directory
is classified as a directory — and the render loop recurses into every
entry classified as a directory. -/
theorem c3_classification_follows_stat :
    (∀ (fs : FS) (cfg : Config) (dir : String) (names : List String) (e : DirEntry),
        e ∈ collect_entries fs cfg dir names → fs.stat e.path = some e.is_dir)
    ∧ (∀ (rec : String → String → Nat → WalkState → WalkState) (cfg : Config)
        (pfx : String) (d : Nat) (e : DirEntry) (s : WalkState),
        e.is_dir = true →
        process_entries rec cfg pfx d [e] s
          = rec e.path (pfx ++ TREE_SPACE cfg.format) (d + 1)
              ⟨s.buffer ++ [pfx ++ TREE_CORNER cfg.format ++ e.name ++ "\n"],
               s.visited⟩) := by
  constructor
  · intro fs cfg dir names e he
    obtain ⟨n, _, hsome⟩ := List.mem_filterMap.mp he
    exact entry_of_name_stat hsome
  · intro rec cfg pfx d e s hd
    rw [process_entries_cons, if_pos hd, process_entries_nil]
    rfl

/-- C3 witness: the symlink entry `s` of `symFS` is collected with
`is_dir = true` (its `stat` answer), and the loop hands it to the recursive
walk. -/
theorem c3_witness :
    ((⟨"/r/s", "s", true⟩ : DirEntry)
        ∈ collect_entries symFS dirtree_init_config "/r" ["d", "s"]
     ∧ symFS.stat "/r/s" = some true)
    ∧ ((⟨"/r/s", "s", true⟩ : DirEntry).is_dir = true
     ∧ process_entries (fun _ _ _ s => s) dirtree_init_config "" 1
          [⟨"/r/s", "s", true⟩] ⟨[], []⟩
         = (fun _ _ _ s => s) "/r/s"
             ("" ++ TREE_SPACE dirtree_init_config.format) (1 + 1)
             ⟨[] ++ ["" ++ TREE_CORNER dirtree_init_config.format ++ "s" ++ "\n"],
              []⟩) :=
  ⟨⟨by decide,
    c3_classification_follows_stat.1 symFS dirtree_init_config "/r" ["d", "s"]
      ⟨"/r/s", "s", true⟩ (by decide)⟩,
   ⟨rfl,
    c3_classification_follows_stat.2 (fun _ _ _ s => s) dirtree_init_config "" 1
      ⟨"/r/s", "s", true⟩ ⟨[], []⟩ rfl⟩⟩

/-- C4 counterexample: on `fileFS` the root path `f` exists but is a regular
file; `realpath` succeeds and `opendir` fails, so `dirtree_generate_string`
returns the trivial tree `"f\n"` instead of a failure indicator. -/
theorem c4_counterexample :
    dirtree_generate_string fileFS 3 (some "f") (some dirtree_init_config)
      = some "f\n" := by
  decide

/-- C4 (amended): `dirtree_generate_string` fails (returns `NULL`) exactly
for `NULL` arguments and for a root whose `realpath` fails (missing or
unresolvable); a root that resolves but is not a directory is not detected —
the basename-only tree string is returned instead of an error. -/
theorem c4_failure_only_on_resolution :
    (∀ (fs : FS) (fuel : Nat) (path : String) (cfg : Config),
        fs.realpath path = none →
        dirtree_generate_string fs fuel (some path) (some cfg) = none)
    ∧ (∀ (fs : FS) (fuel : Nat) (cfg : Option Config),
        dirtree_generate_string fs fuel none cfg = none)
    ∧ (∀ (fs : FS) (fuel : Nat) (dp : Option String),
        dirtree_generate_string fs fuel dp none = none)
    ∧ dirtree_generate_string fileFS 3 (some "f") (some dirtree_init_config)
        = some (basename_of "/r/f" ++ "\n") := by
  refine ⟨?_, ?_, ?_, by decide⟩
  · intro fs fuel path cfg h
    simp [dirtree_generate_string, h]
  · intro fs fuel cfg
    cases cfg <;> rfl
  · intro fs fuel dp
    cases dp <;> rfl

/-- C4 witness: a root that `realpath` cannot resolve makes generation fail
before producing output. -/
theorem c4_witness :
    fileFS.realpath "g" = none
    ∧ dirtree_generate_string fileFS 3 (some "g") (some dirtree_init_config) = none :=
  ⟨by decide,
   c4_failure_only_on_resolution.1 fileFS 3 "g" dirtree_init_config (by decide)⟩

/-- C5: `max_depth <= 0` means unlimited (the walk is independent of the
depth counter); with `max_depth > 0` a call at `depth > max_depth` returns
without listing anything; concretely, `maxDepth = 1` on a root with one
subdirectory holding files lists the subdirectory's name but not its
contents, while the default unlimited configuration lists everything. -/
theorem c5_max_depth :
    (∀ (fs : FS) (cfg : Config) (fuel : Nat) (dir pfx : String) (d d' : Nat)
        (s : WalkState), cfg.max_depth ≤ 0 →
        print_tree_to_buffer fs cfg fuel dir pfx d s
          = print_tree_to_buffer fs cfg fuel dir pfx d' s)
    ∧ (∀ (fs : FS) (cfg : Config) (fuel : Nat) (dir pfx : String) (d : Nat)
        (s : WalkState), cfg.max_depth > 0 → (d : Int) > cfg.max_depth →
        print_tree_to_buffer fs cfg fuel dir pfx d s = s)
    ∧ dirtree_generate_string subFS 5 (some "/r")
        (some { dirtree_init_config with max_depth := 1 }) = some "r\n└── sub\n"
    ∧ dirtree_generate_string subFS 5 (some "/r") (some dirtree_init_config)
        = some "r\n└── sub\n    ├── a\n    └── b\n" := by
  refine ⟨?_, ?_, by decide, by decide⟩
  · intro fs cfg fuel dir pfx d d' s h
    exact print_tree_depth_inv fs cfg h fuel dir pfx d d' s
  · intro fs cfg fuel dir pfx d s h1 h2
    exact print_tree_depth_cutoff fs cfg fuel dir pfx d s h1 h2

/-- C5 witness: depth-independence at `max_depth = -1`, and the cut-off at
`max_depth = 1`, `depth = 2`. -/
theorem c5_witness :
    (dirtree_init_config.max_depth ≤ 0
     ∧ print_tree_to_buffer subFS dirtree_init_config 3 "/r" "" 1 ⟨[], []⟩
         = print_tree_to_buffer subFS dirtree_init_config 3 "/r" "" 9 ⟨[], []⟩)
    ∧ (({ dirtree_init_config with max_depth := 1 } : Config).max_depth > 0
       ∧ ((2 : Nat) : Int) > ({ dirtree_init_config with max_depth := 1 } : Config).max_depth
       ∧ print_tree_to_buffer subFS { dirtree_init_config with max_depth := 1 }
            3 "/r/sub" "    " 2 ⟨[], []⟩ = ⟨[], []⟩) :=
  ⟨⟨by decide,
    c5_max_depth.1 subFS dirtree_init_config 3 "/r" "" 1 9 ⟨[], []⟩ (by decide)⟩,
   ⟨by decide, by decide,
    c5_max_depth.2.1 subFS { dirtree_init_config with max_depth := 1 }
      3 "/r/sub" "    " 2 ⟨[], []⟩ (by decide) (by decide)⟩⟩

/-- C6: for a directory listing with distinct entry names, the surviving
entries, as sorted by the walk before rendering, are in strictly increasing
`strcmp` order of their names (byte-wise order coincides with the code-point
order used here on valid UTF-8). -/
theorem c6_siblings_strictly_sorted
    (fs : FS) (cfg : Config) (dir : String) (names : List String)
    (hrd : fs.readdir dir = some names) (hnodup : names.Nodup) :
    List.Pairwise (fun a b => compare_entries a b = Ordering.lt)
      (sort_entries (collect_entries fs cfg dir names)) := by
  have hsorted : List.Pairwise entry_le
      (sort_entries (collect_entries fs cfg dir names)) :=
    sort_entries_sorted _
  have hnodup1 : ((collect_entries fs cfg dir names).map DirEntry.name).Nodup :=
    List.Nodup.sublist (collect_entries_names_sublist fs cfg dir names) hnodup
  have hperm : ((sort_entries (collect_entries fs cfg dir names)).map
      DirEntry.name).Perm ((collect_entries fs cfg dir names).map DirEntry.name) :=
    (sort_entries_perm _).map _
  have hnodup2 := hperm.symm.nodup hnodup1
  have hne : List.Pairwise (fun a b : DirEntry => a.name ≠ b.name)
      (sort_entries (collect_entries fs cfg dir names)) :=
    List.pairwise_map.mp hnodup2
  refine (hsorted.and hne).imp ?_
  intro a b hab
  obtain ⟨hle, hnn⟩ := hab
  unfold entry_le at hle
  unfold compare_entries at hle ⊢
  cases hc : strcmp a.name.data b.name.data with
  | lt => rfl
  | eq => exact absurd (String.ext (strcmp_eq_eq hc)) hnn
  | gt => exact absurd hc hle

/-- C6 witness: the listing `["b", "a"]` of `/r/sub` is rendered in strict
order `a`, `b`. -/
theorem c6_witness :
    subFS.readdir "/r/sub" = some ["b", "a"]
    ∧ (["b", "a"] : List String).Nodup
    ∧ List.Pairwise (fun a b => compare_entries a b = Ordering.lt)
        (sort_entries (collect_entries subFS dirtree_init_config "/r/sub" ["b", "a"])) :=
  ⟨by decide, by decide,
   c6_siblings_strictly_sorted subFS dirtree_init_config "/r/sub" ["b", "a"]
     (by decide) (by decide)⟩

/-- C7: the glyph table is exactly the one of `tree_chars`; for every
sibling position `i` of a rendered listing, the emitted line is the
accumulated continuation, then the corner glyph if `i` is last and the
branch glyph otherwise, then the entry name; and the subtree of sibling `i`
is produced by the recursive walk invoked on the sibling's path with the
continuation extended by the space glyph if `i` is last and the vertical
glyph otherwise (no recursive walk is invoked for a non-directory
sibling). -/
theorem c7_glyphs_and_lines :
    (TREE_BRANCH Format.ascii = "|-- " ∧ TREE_CORNER Format.ascii = "+-- "
     ∧ TREE_VERTICAL Format.ascii = "|   " ∧ TREE_SPACE Format.ascii = "    "
     ∧ TREE_BRANCH Format.unicode = "├── " ∧ TREE_CORNER Format.unicode = "└── "
     ∧ TREE_VERTICAL Format.unicode = "│   " ∧ TREE_SPACE Format.unicode = "    ")
    ∧ (∀ (fs : FS) (cfg : Config) (fuel : Nat) (pfx : String) (d : Nat)
        (es : List DirEntry) (s : WalkState) (i : Nat) (h : i < es.length),
        ∃ pre post,
          (process_entries (print_tree_to_buffer fs cfg fuel) cfg pfx d es s).buffer
            = s.buffer ++ pre
              ++ (pfx ++ (if i = es.length - 1 then TREE_CORNER cfg.format
                          else TREE_BRANCH cfg.format)
                  ++ (es.get ⟨i, h⟩).name ++ "\n") :: post)
    ∧ (∀ (fs : FS) (cfg : Config) (fuel : Nat) (pfx : String) (d : Nat)
        (es : List DirEntry) (s : WalkState) (i : Nat) (h : i < es.length),
        ∃ (si : WalkState) (pre : List String),
          si.buffer = s.buffer ++ pre
          ∧ process_entries (print_tree_to_buffer fs cfg fuel) cfg pfx d es s
            = process_entries (print_tree_to_buffer fs cfg fuel) cfg pfx d
                (es.drop (i + 1))
                (if (es.get ⟨i, h⟩).is_dir then
                  print_tree_to_buffer fs cfg fuel (es.get ⟨i, h⟩).path
                    (pfx ++ (if i = es.length - 1 then TREE_SPACE cfg.format
                             else TREE_VERTICAL cfg.format))
                    (d + 1)
                    ⟨si.buffer ++ [pfx ++ (if i = es.length - 1 then TREE_CORNER cfg.format
                        else TREE_BRANCH cfg.format) ++ (es.get ⟨i, h⟩).name ++ "\n"],
                     si.visited⟩
                else
                  ⟨si.buffer ++ [pfx ++ (if i = es.length - 1 then TREE_CORNER cfg.format
                      else TREE_BRANCH cfg.format) ++ (es.get ⟨i, h⟩).name ++ "\n"],
                   si.visited⟩)) := by
  refine ⟨⟨rfl, rfl, rfl, rfl, rfl, rfl, rfl, rfl⟩, ?_, ?_⟩
  · intro fs cfg fuel pfx d es s i h
    exact process_entries_line _
      (fun d2 p2 n2 s2 => print_tree_buffer_mono fs cfg fuel d2 p2 n2 s2)
      cfg pfx d es s i h
  · intro fs cfg fuel pfx d es s i h
    exact process_entries_subtree _
      (fun d2 p2 n2 s2 => print_tree_buffer_mono fs cfg fuel d2 p2 n2 s2)
      cfg pfx d es s i h

/-- C7 witness: the first of two file entries gets the branch glyph, and
the single (hence last) directory entry `sub` hands its subtree to the
recursive walk at the space-extended continuation. -/
theorem c7_witness :
    ((0 : Nat) < ([⟨"/r/a", "a", false⟩, ⟨"/r/b", "b", false⟩] : List DirEntry).length
     ∧ ∃ pre post,
        (process_entries (print_tree_to_buffer subFS dirtree_init_config 1)
            dirtree_init_config "" 1
            [⟨"/r/a", "a", false⟩, ⟨"/r/b", "b", false⟩] ⟨[], []⟩).buffer
          = (⟨[], []⟩ : WalkState).buffer ++ pre
            ++ ("" ++ (if (0 : Nat)
                    = ([⟨"/r/a", "a", false⟩, ⟨"/r/b", "b", false⟩] : List DirEntry).length - 1
                  then TREE_CORNER dirtree_init_config.format
                  else TREE_BRANCH dirtree_init_config.format)
                ++ (([⟨"/r/a", "a", false⟩, ⟨"/r/b", "b", false⟩] : List DirEntry).get
                    ⟨0, by decide⟩).name ++ "\n") :: post)
    ∧ ((0 : Nat) < ([⟨"/r/sub", "sub", true⟩] : List DirEntry).length
     ∧ ∃ (si : WalkState) (pre : List String),
        si.buffer = (⟨[], []⟩ : WalkState).buffer ++ pre
        ∧ process_entries (print_tree_to_buffer subFS dirtree_init_config 1)
            dirtree_init_config "" 1 [⟨"/r/sub", "sub", true⟩] ⟨[], []⟩
          = process_entries (print_tree_to_buffer subFS dirtree_init_config 1)
              dirtree_init_config "" 1
              (([⟨"/r/sub", "sub", true⟩] : List DirEntry).drop (0 + 1))
              (if (([⟨"/r/sub", "sub", true⟩] : List DirEntry).get ⟨0, by decide⟩).is_dir then
                print_tree_to_buffer subFS dirtree_init_config 1
                  (([⟨"/r/sub", "sub", true⟩] : List DirEntry).get ⟨0, by decide⟩).path
                  ("" ++ (if (0 : Nat) = ([⟨"/r/sub", "sub", true⟩] : List DirEntry).length - 1
                          then TREE_SPACE dirtree_init_config.format
                          else TREE_VERTICAL dirtree_init_config.format))
                  (1 + 1)
                  ⟨si.buffer ++ ["" ++ (if (0 : Nat)
                        = ([⟨"/r/sub", "sub", true⟩] : List DirEntry).length - 1
                      then TREE_CORNER dirtree_init_config.format
                      else TREE_BRANCH dirtree_init_config.format)
                      ++ (([⟨"/r/sub", "sub", true⟩] : List DirEntry).get
                          ⟨0, by decide⟩).name ++ "\n"],
                   si.visited⟩
              else
                ⟨si.buffer ++ ["" ++ (if (0 : Nat)
                      = ([⟨"/r/sub", "sub", true⟩] : List DirEntry).length - 1
                    then TREE_CORNER dirtree_init_config.format
                    else TREE_BRANCH dirtree_init_config.format)
                    ++ (([⟨"/r/sub", "sub", true⟩] : List DirEntry).get
                        ⟨0, by decide⟩).name ++ "\n"],
                 si.visited⟩)) :=
  ⟨⟨by decide,
    c7_glyphs_and_lines.2.1 subFS dirtree_init_config 1 "" 1
      [⟨"/r/a", "a", false⟩, ⟨"/r/b", "b", false⟩] ⟨[], []⟩ 0 (by decide)⟩,
   ⟨by decide,
    c7_glyphs_and_lines.2.2 subFS dirtree_init_config 1 "" 1
      [⟨"/r/sub", "sub", true⟩] ⟨[], []⟩ 0 (by decide)⟩⟩

/-- C8: `NULL` arguments are rejected up front: `dirtree_generate_string`
returns `NULL` when `dirpath` or `config` is `NULL`, and
`dirtree_print_to_file` returns `-1` when `output`, `dirpath` or `config`
is `NULL`, with nothing written to the stream (the embedding returns before
consulting the filesystem in each of these cases). -/
theorem c8_null_checks :
    (∀ (fs : FS) (fuel : Nat) (cfg : Option Config),
        dirtree_generate_string fs fuel none cfg = none)
    ∧ (∀ (fs : FS) (fuel : Nat) (dp : Option String),
        dirtree_generate_string fs fuel dp none = none)
    ∧ (∀ (fs : FS) (fuel : Nat) (dp : Option String) (cfg : Option Config),
        dirtree_print_to_file fs fuel none dp cfg = (-1, none))
    ∧ (∀ (fs : FS) (fuel : Nat) (out : Option Sink) (cfg : Option Config),
        dirtree_print_to_file fs fuel out none cfg = (-1, none))
    ∧ (∀ (fs : FS) (fuel : Nat) (out : Option Sink) (dp : Option String),
        dirtree_print_to_file fs fuel out dp none = (-1, none)) := by
  refine ⟨?_, ?_, ?_, ?_, ?_⟩
  · intro fs fuel cfg
    cases cfg <;> rfl
  · intro fs fuel dp
    cases dp <;> rfl
  · intro fs fuel dp cfg
    cases dp <;> cases cfg <;> rfl
  · intro fs fuel out cfg
    cases out <;> cases cfg <;> rfl
  · intro fs fuel out dp
    cases out <;> cases dp <;> rfl

/-- C9: the skip rules are never consulted for the root itself: even when
the resolved root's basename matches a skip rule, the output is still the
basename line followed by the full rendering of the root's children. -/
theorem c9_root_exempt_from_skip_rules
    (fs : FS) (fuel : Nat) (path abs_dir : String) (cfg : Config)
    (hres : fs.realpath path = some abs_dir)
    (hskip : should_skip_dir (basename_of abs_dir) cfg = true) :
    dirtree_generate_string fs fuel (some path) (some cfg)
      = some (basename_of abs_dir ++ "\n"
          ++ String.join (print_tree_to_buffer fs cfg fuel abs_dir "" 1
              ⟨[], []⟩).buffer) := by
  simp [dirtree_generate_string, hres]

/-- C9 witness: a root directory named `node_modules` (which
`should_skip_dir` matches under the default configuration) is still listed
with its child. -/
theorem c9_witness :
    (nmFS.realpath "nm" = some "/p/node_modules"
     ∧ should_skip_dir (basename_of "/p/node_modules") dirtree_init_config = true)
    ∧ dirtree_generate_string nmFS 3 (some "nm") (some dirtree_init_config)
        = some "node_modules\n└── a.txt\n" :=
  ⟨⟨by decide, by decide⟩,
   (c9_root_exempt_from_skip_rules nmFS 3 "nm" "/p/node_modules"
      dirtree_init_config (by decide) (by decide)).trans (by decide)⟩

/-- C10: adding a custom skip name appends it at the end of the respective
custom list (a `NULL` list pointer counting as empty), leaves every earlier
entry and every other configuration field unchanged (the list stays
`NULL`-terminated by construction in the list model), and a `NULL` config
or name leaves the configuration entirely unchanged. -/
theorem c10_add_skip_appends :
    (∀ (cfg : Config) (name : String), ∃ cfg',
        dirtree_add_skip_dir (some cfg) (some name) = some cfg'
        ∧ cfg'.custom_skip_dirs = some ((cfg.custom_skip_dirs.getD []) ++ [name])
        ∧ cfg'.custom_skip_files = cfg.custom_skip_files
        ∧ cfg'.max_depth = cfg.max_depth
        ∧ cfg'.skip_hidden = cfg.skip_hidden
        ∧ cfg'.skip_common = cfg.skip_common
        ∧ cfg'.format = cfg.format)
    ∧ (∀ (cfg : Config) (name : String), ∃ cfg',
        dirtree_add_skip_file (some cfg) (some name) = some cfg'
        ∧ cfg'.custom_skip_files = some ((cfg.custom_skip_files.getD []) ++ [name])
        ∧ cfg'.custom_skip_dirs = cfg.custom_skip_dirs
        ∧ cfg'.max_depth = cfg.max_depth
        ∧ cfg'.skip_hidden = cfg.skip_hidden
        ∧ cfg'.skip_common = cfg.skip_common
        ∧ cfg'.format = cfg.format)
    ∧ (∀ c : Option Config, dirtree_add_skip_dir c none = c)
    ∧ (∀ n : Option String, dirtree_add_skip_dir none n = none)
    ∧ (∀ c : Option Config, dirtree_add_skip_file c none = c)
    ∧ (∀ n : Option String, dirtree_add_skip_file none n = none) := by
  refine ⟨?_, ?_, ?_, ?_, ?_, ?_⟩
  · intro cfg name
    refine ⟨_, rfl, ?_, rfl, rfl, rfl, rfl, rfl⟩
    cases hc : cfg.custom_skip_dirs with
    | none => simp [dirtree_add_skip_dir, hc, append_entry_eq]
    | some l => simp [dirtree_add_skip_dir, hc, append_entry_eq]
  · intro cfg name
    refine ⟨_, rfl, ?_, rfl, rfl, rfl, rfl, rfl⟩
    cases hc : cfg.custom_skip_files with
    | none => simp [dirtree_add_skip_file, hc, append_entry_eq]
    | some l => simp [dirtree_add_skip_file, hc, append_entry_eq]
  · intro c
    cases c <;> rfl
  · intro n
    rfl
  · intro c
    cases c <;> rfl
  · intro n
    rfl

end Dirtree
